import Mathlib

/-!
Verification of `uri2sql.js`: a shallow embedding of the module's translation
engine (query object → SQL `WHERE`/`ORDER BY` text plus positional bind values)
together with proofs of the specified properties.

The JS module is a single function `uri2sql(query, columns)` with two helpers
`getValue` and `checkCol`, a fixed operator table, and a process-wide bind
placeholder symbol `subs` (default `"$"`).  Queries are JS objects iterated in
insertion order; we model them as association lists.  JS exceptions (thrown
strings and the `TypeError` raised by calling `.split` on a `Number`) are
modelled with `Except`.
-/

namespace Uri2Sql

/-- The single-quote character (code point 39). -/
def squote : Char := Char.ofNat 39

/-- A non-NaN JS number: a finite value (modelled as an exact rational
rather than an IEEE-754 double — no claim under study observes rounding)
or one of the two infinities, which JS `Number("Infinity")` produces and
which are numbers (`isNaN` is false on them). -/
inductive JsNum where
  | val (q : ℚ)
  | inf
  | negInf
deriving DecidableEq, Repr

/-- A JS scalar as it occurs in a query object: a number or a string. -/
inductive Scalar where
  | num (n : JsNum)
  | str (s : String)
deriving DecidableEq, Repr

/-- A query-object entry value: a plain scalar, or an operator sub-object
`{op₁: v₁, op₂: v₂, …}` (iterated in insertion order). -/
inductive JsVal where
  | scalar (v : Scalar)
  | obj (kvs : List (String × Scalar))
deriving DecidableEq, Repr

/-- A query object: association list of key/value entries in insertion order. -/
abbrev Query := List (String × JsVal)

/-- One record of the column allow-list, exposing a `column_name` attribute. -/
structure ColumnRec where
  column_name : String
deriving DecidableEq, Repr

/-- The exceptions the JS code can raise: the four thrown message strings and
the `TypeError` produced by calling `.split(":")` on a `Number` value. -/
inductive Err where
  /-- `"ERROR: missing value parameter"` -/
  | missingValue
  /-- `"ERROR: invalid value in query: " + param` -/
  | invalidValue (s : String)
  /-- `"ERROR: invalid column name: " + colName` -/
  | unknownColumn (s : String)
  /-- `"ERROR: incorrect $sort parameter value: " + value` -/
  | invalidSort
  /-- JS `TypeError`: `val.split is not a function` (value was a `Number`). -/
  | typeError
deriving DecidableEq, Repr

/-- `s.charAt(0) == c` for a single character `c` (out-of-range `charAt`
yields `""`, which never equals a one-character string). -/
def headIs (s : String) (c : Char) : Bool := s.data.head? == some c

/-- `s.substring(1)`. -/
def strTail (s : String) : String := String.mk s.data.tail

/-- `s.includes(c)` for a single-character needle `c`. -/
def jsIncludes (s : String) (c : Char) : Bool := s.data.contains c

/-- JS `s.split(":")` on the character list of `s`: split at every `':'`,
keeping empty groups (`"".split(":") = [""]`, `"a:".split(":") = ["a",""]`). -/
def jsSplit : List Char → List (List Char)
  | [] => [[]]
  | c :: rest =>
    if c == ':' then [] :: jsSplit rest
    else
      match jsSplit rest with
      | [] => [[c]]
      | g :: gs => (c :: g) :: gs

/-- The ECMAScript `StrWhiteSpaceChar` set (WhiteSpace and LineTerminator
code points) that `Number(string)` strips from both ends. -/
def jsWhitespace (c : Char) : Bool :=
  c.toNat == 9 || c.toNat == 10 || c.toNat == 11 || c.toNat == 12 || c.toNat == 13 ||
  c.toNat == 32 || c.toNat == 160 || c.toNat == 5760 ||
  (decide (8192 ≤ c.toNat) && decide (c.toNat ≤ 8202)) ||
  c.toNat == 8232 || c.toNat == 8233 || c.toNat == 8239 || c.toNat == 8287 ||
  c.toNat == 12288 || c.toNat == 65279

/-- Strip `jsWhitespace` from both ends of a character list. -/
def jsTrim (l : List Char) : List Char :=
  ((l.dropWhile jsWhitespace).reverse.dropWhile jsWhitespace).reverse

/-- The value of a (decimal or hex) digit character, `none` otherwise. -/
def digitVal? (c : Char) : Option Nat :=
  if c.isDigit then some (c.toNat - 48)
  else if 97 ≤ c.toNat ∧ c.toNat ≤ 102 then some (c.toNat - 87)
  else if 65 ≤ c.toNat ∧ c.toNat ≤ 70 then some (c.toNat - 55)
  else none

/-- Accumulate digits in the given radix; fails on a non-digit or a digit
out of range for the radix. -/
def parseRadixAux (radix : Nat) (acc : Nat) : List Char → Option Nat
  | [] => some acc
  | c :: rest =>
    match digitVal? c with
    | some d => if d < radix then parseRadixAux radix (acc * radix + d) rest else none
    | none => none

/-- A nonempty digit string in the given radix. -/
def parseRadixDigits (radix : Nat) (l : List Char) : Option Nat :=
  if l.isEmpty then none else parseRadixAux radix 0 l

/-- Value of a decimal digit string, most significant first. -/
def digitsVal (l : List Char) : Nat :=
  l.foldl (fun a c => a * 10 + (c.toNat - 48)) 0

/-- Parse the mantissa part `digits [ '.' digits ]` (at least one digit). -/
def parseMantissa (l : List Char) : Option ℚ :=
  let ip := l.takeWhile Char.isDigit
  match l.dropWhile Char.isDigit with
  | [] => if ip.isEmpty then none else some ((digitsVal ip : ℚ))
  | '.' :: frac =>
    if frac.all Char.isDigit && !(ip.isEmpty && frac.isEmpty) then
      some ((digitsVal ip : ℚ) + (digitsVal frac : ℚ) / (10 : ℚ) ^ frac.length)
    else none
  | _ => none

/-- Parse an exponent `[ '+' | '-' ] digits`. -/
def parseExp (l : List Char) : Option ℤ :=
  match l with
  | '+' :: ds => if !ds.isEmpty && ds.all Char.isDigit then some ((digitsVal ds : ℤ)) else none
  | '-' :: ds => if !ds.isEmpty && ds.all Char.isDigit then some (-(digitsVal ds : ℤ)) else none
  | ds => if !ds.isEmpty && ds.all Char.isDigit then some ((digitsVal ds : ℤ)) else none

/-- Parse an unsigned decimal literal `mantissa [ ('e'|'E') exponent ]`. -/
def jsParseDec (l : List Char) : Option ℚ :=
  let mant := l.takeWhile (fun c => !(c == 'e' || c == 'E'))
  match parseMantissa mant, l.dropWhile (fun c => !(c == 'e' || c == 'E')) with
  | some m, [] => some m
  | some m, _ :: etail => (parseExp etail).map (fun e => m * (10 : ℚ) ^ e)
  | none, _ => none

/-- Parse `StrDecimalLiteral`: an optional sign followed by the literal
`Infinity` or an unsigned decimal literal. -/
def jsParseSigned (l : List Char) : Option JsNum :=
  match l with
  | '+' :: r =>
    if r = "Infinity".data then some .inf
    else (jsParseDec r).map (fun q => .val q)
  | '-' :: r =>
    if r = "Infinity".data then some .negInf
    else (jsParseDec r).map (fun q => .val (-q))
  | _ =>
    if l = "Infinity".data then some .inf
    else (jsParseDec l).map (fun q => .val q)

/-- JS `Number(string)` per the `StringNumericLiteral` grammar: trim
whitespace; the empty remainder is 0; `0x`/`0X`, `0o`/`0O`, `0b`/`0B`
introduce unsigned hex/octal/binary integer literals; otherwise an
optionally signed decimal literal or `Infinity`.  `none` is JS `NaN`.
Finite values are exact rationals, not rounded IEEE doubles — no property
proved here observes the numeric value beyond the examples' small
integers. -/
def jsToNumber (s : String) : Option JsNum :=
  let l := jsTrim s.data
  if l.isEmpty then some (.val 0)
  else
    match l with
    | '0' :: c :: rest =>
      if c == 'x' || c == 'X' then
        (parseRadixDigits 16 rest).map (fun n : Nat => .val ((n : ℚ)))
      else if c == 'o' || c == 'O' then
        (parseRadixDigits 8 rest).map (fun n : Nat => .val ((n : ℚ)))
      else if c == 'b' || c == 'B' then
        (parseRadixDigits 2 rest).map (fun n : Nat => .val ((n : ℚ)))
      else jsParseSigned l
    | _ => jsParseSigned l

/-- Translation of `getValue(param)` (src/uri2sql.js lines 51–72): empty value
throws; a value parsing as a number is returned numeric; the literal string
`"NULL"` is returned unchanged; any other string is rejected when it contains
a single quote or semicolon, else returned unchanged. -/
def getValue (param : Scalar) : Except Err Scalar :=
  match param with
  | .num q => .ok (.num q)
  | .str s =>
    if s.length == 0 then .error .missingValue
    else
      match jsToNumber s with
      | some q => .ok (.num q)
      | none =>
        if s == "NULL" then .ok (.str s)
        else if jsIncludes s squote || jsIncludes s ';' then .error (.invalidValue s)
        else .ok (.str s)

/-- Translation of `checkCol(colName)` (src/uri2sql.js lines 74–85): a no-op
when the allow-list is empty; otherwise throws when no record's
`column_name` equals the candidate. -/
def checkCol (columns : List ColumnRec) (colName : String) : Except Err Unit :=
  if columns.length > 0 then
    match columns.find? (fun o => o.column_name == colName) with
    | none => .error (.unknownColumn colName)
    | some _ => .ok ()
  else .ok ()

/-- The URI-level operator tokens (src/uri2sql.js line 90). -/
def operators : List String :=
  ["eq", "ne", "lt", "gte", "gt", "lte", "in", "like", "tween", "is"]

/-- The SQL operator texts: row 0 the normal translation, row 1 the negated
translation (src/uri2sql.js lines 96–101). -/
def sqlop : List (List String) :=
  [["= ", "!= ", "< ", ">= ", "> ", "<= ", "IN (", "LIKE ", "BETWEEN ", "IS "],
   ["!= ", "= ", ">= ", "< ", "<= ", "> ", "NOT IN (", "NOT LIKE ", "NOT BETWEEN ", "IS NOT "]]

/-- The bind placeholder symbol (the module global `subs`, default `"$"`). -/
def subs : String := "$"

/-- The compiler's mutable locals (src/uri2sql.js lines 103–106), plus the
ghost field `placeholders`: the bind placeholder numbers in the order the
code emits `subs + (substitution++)` into the SQL text.  It is instrumentation
for stating the numbering invariant and is not part of the JS return value. -/
structure CompState where
  sql : String
  sort : String
  valueArray : List Scalar
  substitution : Nat
  placeholders : List Nat
deriving DecidableEq, Repr

/-- The returned object `{sql, values}` (plus the ghost placeholder trace). -/
structure SqlResult where
  sql : String
  values : List Scalar
  placeholders : List Nat
deriving DecidableEq, Repr

/-- The `val.split(":").forEach(...)` loop of the `in` operator
(src/uri2sql.js lines 229–233): one placeholder per segment, comma-joined
after the first, each raw segment pushed onto the value array. -/
def doInSegs : CompState → Bool → List (List Char) → CompState
  | st, _, [] => st
  | st, first, g :: gs =>
    doInSegs
      { st with
        sql := st.sql ++ (if first then "" else ", ") ++ subs ++ toString st.substitution,
        substitution := st.substitution + 1,
        placeholders := st.placeholders ++ [st.substitution],
        valueArray := st.valueArray ++ [.str (String.mk g)] }
      false gs

/-- One iteration of the operator sub-object loop (src/uri2sql.js
lines 187–243): strip a leading `-`, look up the SQL operator text (default
`"= "`), then dispatch on `is` / `tween` / `in` / single-value.  Returns the
new state and the (sticky) negate flag. -/
def doOp (st : CompState) (negate : Nat) (op : String) (rawVal : Scalar) :
    Except Err (CompState × Nat) :=
  let o := if headIs op '-' then strTail op else op
  let negate1 := if headIs op '-' then 1 else negate
  let opText :=
    if operators.contains o then
      (sqlop.getD negate1 []).getD (operators.findIdx (fun x => x == o)) ""
    else "= "
  let st1 := { st with sql := st.sql ++ opText }
  if o == "is" then
    .ok ({ st1 with sql := st1.sql ++ "NULL " }, negate1)
  else if o == "tween" then
    let st2 := { st1 with
      sql := st1.sql ++ subs ++ toString st1.substitution ++ " AND " ++
             subs ++ toString (st1.substitution + 1) ++ " ",
      substitution := st1.substitution + 2,
      placeholders := st1.placeholders ++ [st1.substitution, st1.substitution + 1] }
    match getValue rawVal with
    | .error e => .error e
    | .ok (.num _) => .error .typeError
    | .ok (.str s) =>
      match jsSplit s.data with
      | [] => .error .missingValue
      | [_] => .error .missingValue
      | g0 :: g1 :: _ =>
        .ok ({ st2 with valueArray := st2.valueArray ++ [.str (String.mk g0), .str (String.mk g1)] },
             negate1)
  else if o == "in" then
    match getValue rawVal with
    | .error e => .error e
    | .ok (.num _) => .error .typeError
    | .ok (.str s) =>
      let st2 := doInSegs st1 true (jsSplit s.data)
      .ok ({ st2 with sql := st2.sql ++ ") " }, negate1)
  else
    let st2 := { st1 with
      sql := st1.sql ++ subs ++ toString st1.substitution ++ " ",
      substitution := st1.substitution + 1,
      placeholders := st1.placeholders ++ [st1.substitution] }
    match getValue rawVal with
    | .error e => .error e
    | .ok v => .ok ({ st2 with valueArray := st2.valueArray ++ [v] }, negate1)

/-- The `for (var op in query[col])` loop, threading the sticky `negate`
flag (declared once per column entry, never reset between operators). -/
def doOps : CompState → Nat → List (String × Scalar) → Except Err CompState
  | st, _, [] => .ok st
  | st, negate, (op, v) :: rest =>
    match doOp st negate op v with
    | .error e => .error e
    | .ok (st1, negate1) => doOps st1 negate1 rest

/-- The `sortCols.forEach(...)` loop (src/uri2sql.js lines 136–152): read a
leading `-` as `DESC`, validate the stripped column name, and append it to
the `ORDER BY` clause. -/
def doSortCols (columns : List ColumnRec) : CompState → List (List Char) → Except Err CompState
  | st, [] => .ok st
  | st, g :: gs =>
    let sortCol := String.mk g
    let neg := headIs sortCol '-'
    let sortDir := if neg then " DESC" else ""
    let sortCol1 := if neg then strTail sortCol else sortCol
    match checkCol columns sortCol1 with
    | .error e => .error e
    | .ok _ =>
      doSortCols columns
        { st with sort := (if st.sort == "" then "ORDER BY " else st.sort ++ ", ") ++ sortCol1 ++ sortDir }
        gs

/-- One iteration of the main `for (var col in query)` loop (src/uri2sql.js
lines 113–246): `$`-keys other than `$sort` are skipped; `$sort` requires a
string, passes it through `getValue`, splits on `:` and builds the sort
clause (`.split` on a numeric `getValue` result is a JS `TypeError`);
any other key is a filter column: validate it, prefix `WHERE `/`AND `,
then dispatch on scalar (implicit `= `) versus operator sub-object. -/
def doEntry (columns : List ColumnRec) (st : CompState) : String × JsVal → Except Err CompState
  | (col, v) =>
    if headIs col '$' then
      if col == "$sort" then
        match v with
        | .scalar (.str s) =>
          match getValue (.str s) with
          | .error e => .error e
          | .ok (.num _) => .error .typeError
          | .ok (.str s1) => doSortCols columns st (jsSplit s1.data)
        | _ => .error .invalidSort
      else .ok st
    else
      match checkCol columns col with
      | .error e => .error e
      | .ok _ =>
        let st1 := { st with
          sql := (if st.sql == "" then st.sql ++ "WHERE " else st.sql ++ "AND ") ++ col ++ " " }
        match v with
        | .scalar sc =>
          let st2 := { st1 with
            sql := st1.sql ++ "= " ++ subs ++ toString st1.substitution ++ " ",
            substitution := st1.substitution + 1,
            placeholders := st1.placeholders ++ [st1.substitution] }
          match getValue sc with
          | .error e => .error e
          | .ok val => .ok { st2 with valueArray := st2.valueArray ++ [val] }
        | .obj kvs => doOps st1 0 kvs

/-- The main loop over all query entries. -/
def doEntries (columns : List ColumnRec) : CompState → Query → Except Err CompState
  | st, [] => .ok st
  | st, e :: rest =>
    match doEntry columns st e with
    | .error err => .error err
    | .ok st1 => doEntries columns st1 rest

/-- The initial compiler state (src/uri2sql.js lines 103–106): empty `sql`
and `sort` strings, empty value array, substitution counter 1. -/
def initState : CompState :=
  { sql := "", sort := "", valueArray := [], substitution := 1, placeholders := [] }

/-- Translation of `uri2sql(query, columns)` (src/uri2sql.js lines 23–252):
run the loop from the initial state and return `{sql: sql + sort, values}`. -/
def uri2sql (query : Query) (columns : List ColumnRec) : Except Err SqlResult :=
  match doEntries columns initState query with
  | .error e => .error e
  | .ok st => .ok { sql := st.sql ++ st.sort, values := st.valueArray, placeholders := st.placeholders }

/-- The placeholder text the `in` loop contributes: one `subs`-prefixed
number per segment, comma-joined after the first. -/
def phList (first : Bool) (k : Nat) : List (List Char) → String
  | [] => ""
  | _ :: gs => (if first then "" else ", ") ++ subs ++ toString k ++ phList false (k + 1) gs

/-- A string free of the two characters `getValue` refuses. -/
def CleanStr (s : String) : Prop :=
  jsIncludes s squote = false ∧ jsIncludes s ';' = false

/-- The compiler's numbering invariant: the next placeholder number is one
past the number of values bound so far, and the emitted placeholder numbers
so far are exactly `1..valueArray.length` in order. -/
def Inv (st : CompState) : Prop :=
  st.substitution = st.valueArray.length + 1 ∧
  st.placeholders = List.range' 1 st.valueArray.length

/-- Every string scalar stored in the value array is clean. -/
def CleanVals (st : CompState) : Prop :=
  ∀ s : String, Scalar.str s ∈ st.valueArray → CleanStr s

/-- The conjunction of the two state invariants. -/
def Good (st : CompState) : Prop := Inv st ∧ CleanVals st

/-- The SQL operator text the compiler selects for token `t` from row
`negate` of the table — the lookup `sqlop[negate][operators.indexOf(o)]`
(src/uri2sql.js line 197). -/
def opTextOf (negate : Nat) (t : String) : String :=
  (sqlop.getD negate []).getD (operators.findIdx (fun x => x == t)) ""

/-! ### Elementary string and parsing lemmas -/

theorem headIs_dash_append (t : String) : headIs ("-" ++ t) '-' = true := by
  simp [headIs, String.data_append]

theorem strTail_dash_append (t : String) : strTail ("-" ++ t) = t := by
  simp [strTail, String.data_append]

theorem str_length_beq_zero {s : String} (h : s ≠ "") : (s.length == 0) = false := by
  cases s with
  | mk l =>
    cases l with
    | nil => exact absurd rfl h
    | cons c cs => simp [String.length]

theorem jsIncludes_ne_empty {s : String} {c : Char} (h : jsIncludes s c = true) : s ≠ "" := by
  intro he
  subst he
  simp [jsIncludes, List.contains] at h

theorem mem_dropWhile_of_neg {p : Char → Bool} {c : Char} :
    ∀ {l : List Char}, c ∈ l → p c = false → c ∈ l.dropWhile p := by
  intro l
  induction l with
  | nil => intro h _; cases h
  | cons a rest ih =>
    intro hc hp
    rw [List.dropWhile_cons]
    by_cases hpa : p a = true
    · rw [if_pos hpa]
      rcases List.mem_cons.mp hc with h | h
      · subst h; rw [hp] at hpa; exact absurd hpa (by simp)
      · exact ih h hp
    · rw [Bool.not_eq_true] at hpa
      rw [if_neg (by simp [hpa])]
      exact hc

theorem dropWhile_head_false {p : Char → Bool} :
    ∀ (l : List Char) (x : Char) (xs : List Char), l.dropWhile p = x :: xs → p x = false := by
  intro l
  induction l with
  | nil => intro x xs h; simp [List.dropWhile] at h
  | cons a rest ih =>
    intro x xs h
    rw [List.dropWhile_cons] at h
    by_cases hpa : p a = true
    · rw [if_pos hpa] at h
      exact ih x xs h
    · rw [Bool.not_eq_true] at hpa
      rw [if_neg (by simp [hpa])] at h
      injection h with h1 _
      subst h1
      exact hpa

theorem parseRadixAux_none {radix : Nat} {c : Char} (hc : digitVal? c = none) :
    ∀ (l : List Char) (acc : Nat), c ∈ l → parseRadixAux radix acc l = none := by
  intro l
  induction l with
  | nil => intro acc h; cases h
  | cons a rest ih =>
    intro acc hmem
    rw [parseRadixAux]
    cases hda : digitVal? a with
    | none => rfl
    | some d =>
      show (if d < radix then parseRadixAux radix (acc * radix + d) rest else none) = none
      rcases List.mem_cons.mp hmem with h | h
      · subst h; rw [hc] at hda; exact Option.noConfusion hda
      · by_cases hd : d < radix
        · rw [if_pos hd]; exact ih (acc * radix + d) h
        · rw [if_neg hd]

theorem parseExp_none {c : Char} (hdig : c.isDigit = false)
    (hplus : c ≠ '+') (hminus : c ≠ '-') :
    ∀ {l : List Char}, c ∈ l → parseExp l = none := by
  have hds : ∀ (ds : List Char), c ∈ ds → (!ds.isEmpty && ds.all Char.isDigit) = false := by
    intro ds hmem
    have hall : ds.all Char.isDigit = false := by
      rw [← Bool.not_eq_true]
      intro hall
      have := List.all_eq_true.mp hall c hmem
      rw [hdig] at this
      exact Bool.false_ne_true this
    simp [hall]
  intro l hmem
  unfold parseExp
  split
  · rename_i ds
    rcases List.mem_cons.mp hmem with h | h
    · exact absurd h hplus
    · rw [hds ds h]
      try rfl
  · rename_i ds
    rcases List.mem_cons.mp hmem with h | h
    · exact absurd h hminus
    · rw [hds ds h]
      try rfl
  all_goals
    rw [hds _ hmem]
    try rfl

theorem parseMantissa_none {c : Char} (hdig : c.isDigit = false) (hdot : c ≠ '.')
    {l : List Char} (hmem : c ∈ l.dropWhile Char.isDigit) : parseMantissa l = none := by
  simp only [parseMantissa]
  split
  · rename_i heq
    rw [heq] at hmem
    cases hmem
  · rename_i frac heq
    rw [heq] at hmem
    rcases List.mem_cons.mp hmem with h | h
    · exact absurd h hdot
    · have hfr : frac.all Char.isDigit = false := by
        rw [← Bool.not_eq_true]
        intro hall
        have := List.all_eq_true.mp hall c h
        rw [hdig] at this
        exact Bool.false_ne_true this
      rw [hfr]
      simp
  all_goals rfl

theorem jsParseDec_none {c : Char} (hdig : c.isDigit = false) (hdot : c ≠ '.')
    (hplus : c ≠ '+') (hminus : c ≠ '-') (he : c ≠ 'e') (hE : c ≠ 'E')
    {l : List Char} (hmem : c ∈ l) : jsParseDec l = none := by
  have hsplit : l.takeWhile (fun ch => !(ch == 'e' || ch == 'E')) ++
      l.dropWhile (fun ch => !(ch == 'e' || ch == 'E')) = l :=
    List.takeWhile_append_dropWhile _ _
  have hmem2 : c ∈ l.takeWhile (fun ch => !(ch == 'e' || ch == 'E')) ++
      l.dropWhile (fun ch => !(ch == 'e' || ch == 'E')) := by
    rw [hsplit]; exact hmem
  rcases List.mem_append.mp hmem2 with hm | hm
  · -- the bad character sits in the mantissa
    have hpm : parseMantissa (l.takeWhile (fun ch => !(ch == 'e' || ch == 'E'))) = none :=
      parseMantissa_none hdig hdot (mem_dropWhile_of_neg hm hdig)
    simp only [jsParseDec, hpm]
  · -- the bad character sits after the `e`/`E`
    cases hdw : l.dropWhile (fun ch => !(ch == 'e' || ch == 'E')) with
    | nil => rw [hdw] at hm; cases hm
    | cons x xs =>
      have hx := dropWhile_head_false _ x xs hdw
      rw [hdw] at hm
      rcases List.mem_cons.mp hm with h | h
      · subst h
        simp [beq_eq_false_iff_ne.mpr he, beq_eq_false_iff_ne.mpr hE] at hx
      · have hexp : parseExp xs = none := parseExp_none hdig hplus hminus h
        cases hpm : parseMantissa (l.takeWhile (fun ch => !(ch == 'e' || ch == 'E'))) with
        | none => simp only [jsParseDec, hpm, hdw]
        | some m => simp only [jsParseDec, hpm, hdw, hexp, Option.map_none']

theorem jsParseSigned_none {c : Char} (hdig : c.isDigit = false) (hdot : c ≠ '.')
    (hplus : c ≠ '+') (hminus : c ≠ '-') (he : c ≠ 'e') (hE : c ≠ 'E')
    (hInf : c ∉ "Infinity".data)
    {l : List Char} (hmem : c ∈ l) : jsParseSigned l = none := by
  have hInfNe : ∀ r : List Char, c ∈ r → ¬(r = "Infinity".data) := by
    intro r hr hEq
    rw [hEq] at hr
    exact hInf hr
  unfold jsParseSigned
  split
  · rename_i r
    rcases List.mem_cons.mp hmem with h | h
    · exact absurd h hplus
    · rw [if_neg (hInfNe r h), jsParseDec_none hdig hdot hplus hminus he hE h, Option.map_none']
  · rename_i r
    rcases List.mem_cons.mp hmem with h | h
    · exact absurd h hminus
    · rw [if_neg (hInfNe r h), jsParseDec_none hdig hdot hplus hminus he hE h, Option.map_none']
  all_goals
    rw [if_neg (hInfNe _ hmem), jsParseDec_none hdig hdot hplus hminus he hE hmem,
        Option.map_none']

/-- A string containing a character that can occur in no arm of the
`StringNumericLiteral` grammar is `NaN` under `Number()`. -/
theorem jsToNumber_none_of_char {s : String} {c : Char}
    (hmemS : jsIncludes s c = true)
    (hws : jsWhitespace c = false) (hdv : digitVal? c = none)
    (hdot : c ≠ '.') (hplus : c ≠ '+') (hminus : c ≠ '-')
    (hx : c ≠ 'x') (hX : c ≠ 'X') (ho : c ≠ 'o') (hO : c ≠ 'O')
    (hInf : c ∉ "Infinity".data) : jsToNumber s = none := by
  have hdig : c.isDigit = false := by
    rw [← Bool.not_eq_true]
    intro h
    rw [digitVal?, if_pos h] at hdv
    exact Option.noConfusion hdv
  have he : c ≠ 'e' := by
    intro h; subst h; exact absurd hdv (by decide)
  have hE : c ≠ 'E' := by
    intro h; subst h; exact absurd hdv (by decide)
  have hsign : ∀ l : List Char, c ∈ l → jsParseSigned l = none :=
    fun l hm => jsParseSigned_none hdig hdot hplus hminus he hE hInf hm
  have hmem : c ∈ s.data := by simpa [jsIncludes, List.contains] using hmemS
  have htrim : c ∈ jsTrim s.data := by
    unfold jsTrim
    rw [List.mem_reverse]
    exact mem_dropWhile_of_neg (by rw [List.mem_reverse]; exact mem_dropWhile_of_neg hmem hws) hws
  have hne : ¬((jsTrim s.data).isEmpty = true) := by
    intro h
    rw [List.isEmpty_iff] at h
    rw [h] at htrim
    cases htrim
  simp only [jsToNumber]
  rw [if_neg hne]
  split
  · -- the `0x`/`0o`/`0b` candidate arm: the trimmed string is '0' :: k :: rest
    rename_i k rest heq
    rw [heq] at htrim
    have hradix : ∀ radix : Nat, c ∈ rest →
        (parseRadixDigits radix rest).map (fun n : Nat => JsNum.val ((n : ℚ))) = none := by
      intro radix hcr
      have hnone : parseRadixDigits radix rest = none := by
        unfold parseRadixDigits
        rw [if_neg]
        · exact parseRadixAux_none hdv rest 0 hcr
        · intro hE2
          rw [List.isEmpty_iff] at hE2
          rw [hE2] at hcr
          cases hcr
      rw [hnone]
      rfl
    rcases List.mem_cons.mp htrim with h0 | hrest
    · exact absurd hdig (by rw [h0]; decide)
    rcases List.mem_cons.mp hrest with hk | hr
    · -- the bad character is the radix marker position: it is none of
      -- x/X/o/O (hypotheses) nor b/B (hex digits), so all radix tests fail
      have hb : c ≠ 'b' := by
        intro hcb; subst hcb; exact absurd hdv (by decide)
      have hB : c ≠ 'B' := by
        intro hcb; subst hcb; exact absurd hdv (by decide)
      rw [← hk]
      rw [if_neg (by simp [beq_eq_false_iff_ne.mpr hx, beq_eq_false_iff_ne.mpr hX]),
          if_neg (by simp [beq_eq_false_iff_ne.mpr ho, beq_eq_false_iff_ne.mpr hO]),
          if_neg (by simp [beq_eq_false_iff_ne.mpr hb, beq_eq_false_iff_ne.mpr hB])]
      exact hsign _ (by rw [heq]; exact htrim)
    · -- the bad character is among the radix digits / the decimal tail
      by_cases h1 : (k == 'x' || k == 'X') = true
      · rw [if_pos h1]; exact hradix 16 hr
      · rw [if_neg h1]
        by_cases h2 : (k == 'o' || k == 'O') = true
        · rw [if_pos h2]; exact hradix 8 hr
        · rw [if_neg h2]
          by_cases h3 : (k == 'b' || k == 'B') = true
          · rw [if_pos h3]; exact hradix 2 hr
          · rw [if_neg h3]
            exact hsign _ (by rw [heq]; exact htrim)
  all_goals exact hsign _ htrim

/-- A string containing a single quote or a semicolon is `NaN` under
`Number()`: neither character fits any arm of the numeric grammar. -/
theorem jsToNumber_none_of_dirty {s : String}
    (h : jsIncludes s squote = true ∨ jsIncludes s ';' = true) : jsToNumber s = none := by
  rcases h with h | h
  · exact jsToNumber_none_of_char h (by decide) (by decide) (by decide) (by decide)
      (by decide) (by decide) (by decide) (by decide) (by decide) (by decide)
  · exact jsToNumber_none_of_char h (by decide) (by decide) (by decide) (by decide)
      (by decide) (by decide) (by decide) (by decide) (by decide) (by decide)

theorem beq_NULL_false_of_dirty {s : String}
    (h : jsIncludes s squote = true ∨ jsIncludes s ';' = true) : (s == "NULL") = false := by
  rw [beq_eq_false_iff_ne]
  intro he
  subst he
  rcases h with h | h <;> revert h <;> decide

/-- On a nonempty, non-numeric, quote/semicolon-free string the normalizer
returns the string unchanged. -/
theorem getValue_str_ok {s : String} (hne : s ≠ "") (hnum : jsToNumber s = none)
    (hq : jsIncludes s squote = false) (hsemi : jsIncludes s ';' = false) :
    getValue (.str s) = .ok (.str s) := by
  by_cases hN : s = "NULL"
  · subst hN; rfl
  · simp [getValue, str_length_beq_zero hne, hnum, beq_eq_false_iff_ne.mpr hN, hq, hsemi]

/-- A string containing a quote or semicolon is rejected with the
invalid-value error. -/
theorem getValue_str_dirty {s : String}
    (h : jsIncludes s squote = true ∨ jsIncludes s ';' = true) :
    getValue (.str s) = .error (.invalidValue s) := by
  have hne : s ≠ "" := by
    rcases h with h | h <;> exact jsIncludes_ne_empty h
  have hnum : jsToNumber s = none := jsToNumber_none_of_dirty h
  have hOr : (jsIncludes s squote || jsIncludes s ';') = true := by
    rcases h with h | h <;> simp [h]
  simp [getValue, str_length_beq_zero hne, hnum, beq_NULL_false_of_dirty h, hOr]

/-- Every string scalar the normalizer accepts is quote- and semicolon-free. -/
theorem getValue_clean {p : Scalar} {s : String} (h : getValue p = .ok (.str s)) :
    CleanStr s := by
  cases p with
  | num q => simp [getValue] at h
  | str s0 =>
    by_cases h0 : (s0.length == 0) = true
    · simp [getValue, h0] at h
    · rw [Bool.not_eq_true] at h0
      cases hn : jsToNumber s0 with
      | some q => simp [getValue, h0, hn] at h
      | none =>
        by_cases hN : (s0 == "NULL") = true
        · have hs0 : s0 = "NULL" := by simpa using hN
          subst hs0
          simp [getValue, h0, hn] at h
          subst h
          exact ⟨by decide, by decide⟩
        · rw [Bool.not_eq_true] at hN
          by_cases hd : (jsIncludes s0 squote || jsIncludes s0 ';') = true
          · simp [getValue, h0, hn, hN, hd] at h
          · rw [Bool.not_eq_true, Bool.or_eq_false_iff] at hd
            simp [getValue, h0, hn, hN, hd.1, hd.2] at h
            subst h
            exact ⟨hd.1, hd.2⟩

/-! ### `jsSplit` lemmas -/

/-- Every character of every segment of a split comes from the split string. -/
theorem jsSplit_sub : ∀ (l g : List Char), g ∈ jsSplit l → ∀ c ∈ g, c ∈ l := by
  intro l
  induction l with
  | nil =>
    intro g hg c hc
    simp [jsSplit] at hg
    subst hg
    simp at hc
  | cons c0 rest ih =>
    intro g hg c hc
    by_cases h0 : (c0 == ':') = true
    · rw [jsSplit, if_pos h0] at hg
      rcases List.mem_cons.mp hg with h | h
      · subst h; simp at hc
      · exact List.mem_cons_of_mem _ (ih g h c hc)
    · rw [Bool.not_eq_true] at h0
      rw [jsSplit, if_neg (by simp [h0])] at hg
      cases hsp : jsSplit rest with
      | nil =>
        rw [hsp] at hg
        simp at hg
        subst hg
        simp at hc
        subst hc
        exact List.mem_cons_self _ _
      | cons g0 gs =>
        rw [hsp] at hg
        rcases List.mem_cons.mp hg with h | h
        · subst h
          rcases List.mem_cons.mp hc with h | h
          · subst h; exact List.mem_cons_self _ _
          · exact List.mem_cons_of_mem _ (ih g0 (by rw [hsp]; exact List.mem_cons_self _ _) c h)
        · exact List.mem_cons_of_mem _ (ih g (by rw [hsp]; exact List.mem_cons_of_mem _ h) c hc)

/-- Segments of a clean string are clean. -/
theorem cleanStr_segment {s : String} {g : List Char}
    (hs : CleanStr s) (hg : g ∈ jsSplit s.data) : CleanStr (String.mk g) := by
  constructor
  · rw [← Bool.not_eq_true]
    intro hc
    have hmem : squote ∈ g := by simpa [jsIncludes, List.contains] using hc
    have hmem2 : squote ∈ s.data := jsSplit_sub _ _ hg _ hmem
    have : jsIncludes s squote = true := by simpa [jsIncludes, List.contains] using hmem2
    rw [hs.1] at this
    exact Bool.false_ne_true this
  · rw [← Bool.not_eq_true]
    intro hc
    have hmem : ';' ∈ g := by simpa [jsIncludes, List.contains] using hc
    have hmem2 : ';' ∈ s.data := jsSplit_sub _ _ hg _ hmem
    have : jsIncludes s ';' = true := by simpa [jsIncludes, List.contains] using hmem2
    rw [hs.2] at this
    exact Bool.false_ne_true this

/-! ### `List.range'` helpers -/

theorem range'_snoc : ∀ (s n : Nat), List.range' s (n + 1) = List.range' s n ++ [s + n] := by
  intro s n
  induction n generalizing s with
  | zero => simp [List.range']
  | succ n ih =>
    rw [List.range'_succ, ih (s + 1), List.range'_succ, List.cons_append]
    have : s + 1 + n = s + (n + 1) := by omega
    rw [this]

theorem range'_glue (m n : Nat) :
    List.range' 1 m ++ List.range' (m + 1) n = List.range' 1 (m + n) := by
  induction n generalizing m with
  | zero => simp [List.range']
  | succ n ih =>
    have h1 : m + (n + 1) = m + n + 1 := by omega
    have h2 : m + 1 + n = 1 + (m + n) := by omega
    rw [h1, range'_snoc 1 (m + n), ← ih, range'_snoc (m + 1) n, h2, List.append_assoc]

/-! ### Characterization of the `in` segment loop -/

theorem doInSegs_spec : ∀ (segs : List (List Char)) (st : CompState) (first : Bool),
    doInSegs st first segs =
      { st with
        sql := st.sql ++ phList first st.substitution segs,
        valueArray := st.valueArray ++ segs.map (fun g => Scalar.str (String.mk g)),
        substitution := st.substitution + segs.length,
        placeholders := st.placeholders ++ List.range' st.substitution segs.length } := by
  intro segs
  induction segs with
  | nil =>
    intro st first
    cases st
    simp [doInSegs, phList, List.range']
  | cons g gs ih =>
    intro st first
    rw [doInSegs, ih]
    cases st with
    | mk sql sort valueArray substitution placeholders =>
      simp only [CompState.mk.injEq]
      refine ⟨?_, trivial, ?_, ?_, ?_⟩
      · simp [phList, String.append_assoc]
      · simp
      · simp only [List.length_cons]; omega
      · simp [List.range'_succ]

/-! ### The sort loop touches only the `sort` field -/

theorem doSortCols_fields : ∀ (segs : List (List Char)) (columns : List ColumnRec)
    (st st1 : CompState), doSortCols columns st segs = .ok st1 →
    st1.sql = st.sql ∧ st1.valueArray = st.valueArray ∧
    st1.substitution = st.substitution ∧ st1.placeholders = st.placeholders := by
  intro segs
  induction segs with
  | nil =>
    intro columns st st1 h
    simp [doSortCols] at h
    subst h
    exact ⟨rfl, rfl, rfl, rfl⟩
  | cons g gs ih =>
    intro columns st st1 h
    rw [doSortCols] at h
    split at h
    · exact absurd h (by simp)
    · have := ih columns _ st1 h
      simpa using this

/-! ### The compilation invariants: placeholder bookkeeping and value safety -/

theorem good_init : Good initState := by
  refine ⟨⟨rfl, rfl⟩, ?_⟩
  intro s hs
  simp [initState] at hs

theorem range'_snoc_one (n : Nat) : List.range' 1 n ++ [n + 1] = List.range' 1 (n + 1) := by
  rw [range'_snoc 1 n, Nat.add_comm 1 n]

theorem range'_snoc_two (n : Nat) :
    List.range' 1 n ++ [n + 1, n + 2] = List.range' 1 (n + 2) := by
  rw [← range'_snoc_one (n + 1), ← range'_snoc_one n, List.append_assoc]
  rfl

/-- Every operator-loop step preserves the two state invariants. -/
theorem doOp_good {st : CompState} {negate : Nat} {op : String} {v : Scalar}
    {st1 : CompState} {negate1 : Nat}
    (hG : Good st) (h : doOp st negate op v = .ok (st1, negate1)) : Good st1 := by
  obtain ⟨⟨h1, h2⟩, hcl⟩ := hG
  simp only [doOp] at h
  generalize (if headIs op '-' = true then strTail op else op) = o at h
  generalize (if headIs op '-' = true then 1 else negate) = neg1 at h
  split at h
  · -- is operator: no emission, no push
    simp only [Except.ok.injEq, Prod.mk.injEq] at h
    obtain ⟨hst, _⟩ := h
    subst hst
    exact ⟨⟨h1, h2⟩, hcl⟩
  · split at h
    · -- tween operator
      split at h
      · exact Except.noConfusion h
      · exact Except.noConfusion h
      · rename_i s heq
        split at h
        · exact Except.noConfusion h
        · exact Except.noConfusion h
        · rename_i g0 g1 tl hsplit
          simp only [Except.ok.injEq, Prod.mk.injEq] at h
          obtain ⟨hst, _⟩ := h
          subst hst
          have hcs : CleanStr s := getValue_clean heq
          refine ⟨⟨?_, ?_⟩, ?_⟩
          · simp only [List.length_append, List.length_cons, List.length_nil]
            omega
          · simp only [List.length_append, List.length_cons, List.length_nil]
            rw [h2, h1]
            have : st.valueArray.length + (0 + 1 + 1) = st.valueArray.length + 2 := by omega
            rw [this]
            exact range'_snoc_two _
          · intro s1 hs1
            simp only [List.mem_append, List.mem_cons, List.not_mem_nil, or_false] at hs1
            rcases hs1 with hs1 | hs1 | hs1
            · exact hcl s1 hs1
            · obtain hs1 := Scalar.str.inj hs1
              subst hs1
              exact cleanStr_segment hcs (by rw [hsplit]; exact List.mem_cons_self _ _)
            · obtain hs1 := Scalar.str.inj hs1
              subst hs1
              exact cleanStr_segment hcs
                (by rw [hsplit]; exact List.mem_cons_of_mem _ (List.mem_cons_self _ _))
    · split at h
      · -- in operator
        split at h
        · exact Except.noConfusion h
        · exact Except.noConfusion h
        · rename_i s heq
          rw [doInSegs_spec] at h
          simp only [Except.ok.injEq, Prod.mk.injEq] at h
          obtain ⟨hst, _⟩ := h
          subst hst
          have hcs : CleanStr s := getValue_clean heq
          refine ⟨⟨?_, ?_⟩, ?_⟩
          · simp only [List.length_append, List.length_map]
            omega
          · simp only [List.length_append, List.length_map]
            rw [h2, h1]
            exact range'_glue _ _
          · intro s1 hs1
            simp only [List.mem_append, List.mem_map] at hs1
            rcases hs1 with hs1 | ⟨g, hg, hgs⟩
            · exact hcl s1 hs1
            · obtain hgs := Scalar.str.inj hgs
              subst hgs
              exact cleanStr_segment hcs hg
      · -- all single-value operators (including the unknown-token fallback)
        split at h
        · exact Except.noConfusion h
        · rename_i val heq
          simp only [Except.ok.injEq, Prod.mk.injEq] at h
          obtain ⟨hst, _⟩ := h
          subst hst
          refine ⟨⟨?_, ?_⟩, ?_⟩
          · simp only [List.length_append, List.length_cons, List.length_nil]
            omega
          · simp only [List.length_append, List.length_cons, List.length_nil]
            rw [h2, h1]
            have : st.valueArray.length + (0 + 1) = st.valueArray.length + 1 := by omega
            rw [this]
            exact range'_snoc_one _
          · intro s1 hs1
            simp only [List.mem_append, List.mem_cons, List.not_mem_nil, or_false] at hs1
            rcases hs1 with hs1 | hs1
            · exact hcl s1 hs1
            · subst hs1
              exact getValue_clean heq

/-- The operator loop preserves the state invariants. -/
theorem doOps_good : ∀ (ops : List (String × Scalar)) (st : CompState) (negate : Nat)
    (st1 : CompState), Good st → doOps st negate ops = .ok st1 → Good st1 := by
  intro ops
  induction ops with
  | nil =>
    intro st negate st1 hG h
    simp [doOps] at h
    subst h
    exact hG
  | cons p rest ih =>
    intro st negate st1 hG h
    obtain ⟨op, v⟩ := p
    rw [doOps] at h
    split at h
    · exact Except.noConfusion h
    · rename_i st2 negate2 heq
      exact ih _ _ st1 (doOp_good hG heq) h

/-- Every main-loop step preserves the state invariants. -/
theorem doEntry_good {columns : List ColumnRec} {st st1 : CompState} {e : String × JsVal}
    (hG : Good st) (h : doEntry columns st e = .ok st1) : Good st1 := by
  obtain ⟨⟨h1, h2⟩, hcl⟩ := hG
  obtain ⟨col, v⟩ := e
  simp only [doEntry] at h
  generalize (if (st.sql == "") = true then st.sql ++ "WHERE " else st.sql ++ "AND ") = p0 at h
  split at h
  · -- a `$` directive
    split at h
    · -- `$sort`
      split at h <;> try exact Except.noConfusion h
      split at h <;> try exact Except.noConfusion h
      obtain ⟨hsql, hva, hsub, hph⟩ := doSortCols_fields _ _ _ _ h
      refine ⟨⟨?_, ?_⟩, ?_⟩
      · rw [hsub, hva]; exact h1
      · rw [hph, hva]; exact h2
      · intro s2 hs2
        rw [hva] at hs2
        exact hcl s2 hs2
    · -- any other `$` key is skipped
      simp only [Except.ok.injEq] at h
      subst h
      exact ⟨⟨h1, h2⟩, hcl⟩
  · -- a filter column
    split at h
    · exact Except.noConfusion h
    · split at h
      · -- plain scalar: implicit equality
        split at h
        · exact Except.noConfusion h
        · rename_i val heq
          simp only [Except.ok.injEq] at h
          subst h
          refine ⟨⟨?_, ?_⟩, ?_⟩
          · simp only [List.length_append, List.length_cons, List.length_nil]
            omega
          · simp only [List.length_append, List.length_cons, List.length_nil]
            rw [h2, h1]
            have : st.valueArray.length + (0 + 1) = st.valueArray.length + 1 := by omega
            rw [this]
            exact range'_snoc_one _
          · intro s1 hs1
            simp only [List.mem_append, List.mem_cons, List.not_mem_nil, or_false] at hs1
            rcases hs1 with hs1 | hs1
            · exact hcl s1 hs1
            · subst hs1
              exact getValue_clean heq
      · -- operator sub-object
        exact doOps_good _
          { sql := p0 ++ col ++ " ", sort := st.sort, valueArray := st.valueArray,
            substitution := st.substitution, placeholders := st.placeholders }
          0 st1 ⟨⟨h1, h2⟩, hcl⟩ h

/-- The main loop preserves the state invariants. -/
theorem doEntries_good : ∀ (q : Query) (columns : List ColumnRec) (st st1 : CompState),
    Good st → doEntries columns st q = .ok st1 → Good st1 := by
  intro q
  induction q with
  | nil =>
    intro columns st st1 hG h
    simp [doEntries] at h
    subst h
    exact hG
  | cons e rest ih =>
    intro columns st st1 hG h
    rw [doEntries] at h
    split at h
    · exact Except.noConfusion h
    · rename_i st2 heq
      exact ih columns _ st1 (doEntry_good hG heq) h

/-! ### Evaluation lemmas used to compute the compiler on single-entry queries -/

theorem uri2sql_singleton (e : String × JsVal) (cols : List ColumnRec) :
    uri2sql [e] cols =
      match doEntry cols initState e with
      | .error err => .error err
      | .ok st => .ok { sql := st.sql ++ st.sort, values := st.valueArray, placeholders := st.placeholders } := by
  cases h : doEntry cols initState e with
  | error err => simp [uri2sql, doEntries, h]
  | ok st => simp [uri2sql, doEntries, h]

theorem doEntry_filter_scalar (cols : List ColumnRec) (st : CompState) (col : String) (sc : Scalar)
    (hcol : headIs col '$' = false) (hchk : checkCol cols col = .ok ()) :
    doEntry cols st (col, .scalar sc) =
      match getValue sc with
      | .error e => .error e
      | .ok val =>
        .ok { st with
          sql := (if st.sql == "" then st.sql ++ "WHERE " else st.sql ++ "AND ") ++ col ++ " " ++
                 "= " ++ subs ++ toString st.substitution ++ " ",
          substitution := st.substitution + 1,
          placeholders := st.placeholders ++ [st.substitution],
          valueArray := st.valueArray ++ [val] } := by
  simp [doEntry, hcol, hchk]

theorem doEntry_filter_obj (cols : List ColumnRec) (st : CompState) (col : String)
    (kvs : List (String × Scalar))
    (hcol : headIs col '$' = false) (hchk : checkCol cols col = .ok ()) :
    doEntry cols st (col, .obj kvs) =
      doOps { st with
        sql := (if st.sql == "" then st.sql ++ "WHERE " else st.sql ++ "AND ") ++ col ++ " " } 0 kvs := by
  simp [doEntry, hcol, hchk]

theorem doEntry_sort_str (cols : List ColumnRec) (st : CompState) (s : String) :
    doEntry cols st ("$sort", .scalar (.str s)) =
      match getValue (.str s) with
      | .error e => .error e
      | .ok (.num _) => .error .typeError
      | .ok (.str s1) => doSortCols cols st (jsSplit s1.data) := by
  have h1 : headIs "$sort" '$' = true := by decide
  simp [doEntry, h1]

theorem doOp_tween_eval (st : CompState) (v : Scalar) :
    doOp st 0 "tween" v =
      match getValue v with
      | .error e => .error e
      | .ok (.num _) => .error .typeError
      | .ok (.str s) =>
        match jsSplit s.data with
        | [] => .error .missingValue
        | [_] => .error .missingValue
        | g0 :: g1 :: _ =>
          .ok ({ st with
                 sql := st.sql ++ "BETWEEN " ++ subs ++ toString st.substitution ++ " AND " ++
                        subs ++ toString (st.substitution + 1) ++ " ",
                 substitution := st.substitution + 2,
                 placeholders := st.placeholders ++ [st.substitution, st.substitution + 1],
                 valueArray := st.valueArray ++ [.str (String.mk g0), .str (String.mk g1)] }, 0) := by
  unfold doOp
  cases hv : getValue v with
  | error e => rfl
  | ok val =>
    cases val with
    | num q => rfl
    | str s =>
      cases hsp : jsSplit s.data with
      | nil => rfl
      | cons g0 tl =>
        cases tl with
        | nil => rfl
        | cons g1 tl2 => rfl

theorem doOp_in_eval (st : CompState) (v : Scalar) :
    doOp st 0 "in" v =
      match getValue v with
      | .error e => .error e
      | .ok (.num _) => .error .typeError
      | .ok (.str s) =>
        let st2 := doInSegs { st with sql := st.sql ++ "IN (" } true (jsSplit s.data)
        .ok ({ st2 with sql := st2.sql ++ ") " }, 0) := by
  unfold doOp
  cases hv : getValue v with
  | error e => rfl
  | ok val =>
    cases val with
    | num q => rfl
    | str s => rfl

/-- An unknown operator token (after negation stripping): the compiler falls
back to `"= "` with a single placeholder and a single pushed value. -/
theorem doOp_unknown_eval (st : CompState) (negate : Nat) (op : String) (v : Scalar)
    (hdash : headIs op '-' = false) (hop : operators.contains op = false) :
    doOp st negate op v =
      match getValue v with
      | .error e => .error e
      | .ok val =>
        .ok ({ st with
               sql := st.sql ++ "= " ++ subs ++ toString st.substitution ++ " ",
               substitution := st.substitution + 1,
               placeholders := st.placeholders ++ [st.substitution],
               valueArray := st.valueArray ++ [val] }, negate) := by
  have hIs : (op == "is") = false := by
    rw [beq_eq_false_iff_ne]
    intro he; subst he; revert hop; decide
  have hTween : (op == "tween") = false := by
    rw [beq_eq_false_iff_ne]
    intro he; subst he; revert hop; decide
  have hIn : (op == "in") = false := by
    rw [beq_eq_false_iff_ne]
    intro he; subst he; revert hop; decide
  have hmem : op ∉ operators := by
    intro hm
    have h2 : operators.contains op = true := by
      simpa [List.contains] using List.elem_iff.mpr hm
    rw [hop] at h2
    exact Bool.false_ne_true h2
  simp [doOp, hdash, hop, hIs, hTween, hIn, hmem]

/-- Variant of `doOp_unknown_eval` for a `-`-prefixed unknown token: the
marker is stripped, the negate flag is set, and the same `"= "` fallback
with one placeholder and one pushed value applies. -/
theorem doOp_unknown_neg_eval (st : CompState) (negate : Nat) (t : String) (v : Scalar)
    (hop : operators.contains t = false) :
    doOp st negate ("-" ++ t) v =
      match getValue v with
      | .error e => .error e
      | .ok val =>
        .ok ({ st with
               sql := st.sql ++ "= " ++ subs ++ toString st.substitution ++ " ",
               substitution := st.substitution + 1,
               placeholders := st.placeholders ++ [st.substitution],
               valueArray := st.valueArray ++ [val] }, 1) := by
  have hIs : (t == "is") = false := by
    rw [beq_eq_false_iff_ne]
    intro he; subst he; revert hop; decide
  have hTween : (t == "tween") = false := by
    rw [beq_eq_false_iff_ne]
    intro he; subst he; revert hop; decide
  have hIn : (t == "in") = false := by
    rw [beq_eq_false_iff_ne]
    intro he; subst he; revert hop; decide
  have hmem : t ∉ operators := by
    intro hm
    have h2 : operators.contains t = true := by
      simpa [List.contains] using List.elem_iff.mpr hm
    rw [hop] at h2
    exact Bool.false_ne_true h2
  simp [doOp, headIs_dash_append, strTail_dash_append, hop, hIs, hTween, hIn, hmem]

/-- A `$`-prefixed key other than `$sort` leaves the state untouched. -/
theorem doEntry_dollar_skip {cols : List ColumnRec} {st : CompState} {col : String} {v : JsVal}
    (hcol : headIs col '$' = true) (hsort : (col == "$sort") = false) :
    doEntry cols st (col, v) = .ok st := by
  simp [doEntry, hcol, hsort]

/-! ## The claims -/

/-- **C1** (confirmed): for every query object and allow-list on which
compilation succeeds, the bind placeholders emitted into the SQL text (the
`placeholders` trace, recorded exactly where the code appends
`subs + (substitution++)`) form the contiguous sequence `1..values.length`
in order of emission, so in particular their count equals `values.length`.
The per-branch content of the claim — implicit equality, `tween`, `in` and
the single-value operators each emit exactly as many placeholders as
values they push, and `is` emits none and pushes none — is what the
preservation lemmas `doOp_good`/`doEntry_good` establish case by case. -/
theorem C1_placeholders_contiguous (q : Query) (cols : List ColumnRec) (r : SqlResult)
    (h : uri2sql q cols = .ok r) :
    r.placeholders = List.range' 1 r.values.length ∧
    r.placeholders.length = r.values.length := by
  unfold uri2sql at h
  split at h
  · exact Except.noConfusion h
  · rename_i st heq
    simp only [Except.ok.injEq] at h
    subst h
    obtain ⟨⟨_, h2⟩, _⟩ := doEntries_good q cols _ st good_init heq
    refine ⟨h2, ?_⟩
    show st.placeholders.length = st.valueArray.length
    rw [h2]
    exact List.length_range' ..

/-- Witness for C1 at the spec's like/equality scenario. -/
theorem C1_witness :
    uri2sql [("name", .obj [("like", .str "%Jones")]), ("city", .scalar (.str "Paris"))] [] =
      .ok { sql := "WHERE name LIKE $1 AND city = $2 ",
            values := [.str "%Jones", .str "Paris"], placeholders := [1, 2] } ∧
    ([1, 2] : List Nat) = List.range' 1 [Scalar.str "%Jones", Scalar.str "Paris"].length :=
  ⟨rfl,
   (C1_placeholders_contiguous
      [("name", .obj [("like", .str "%Jones")]), ("city", .scalar (.str "Paris"))] []
      { sql := "WHERE name LIKE $1 AND city = $2 ",
        values := [.str "%Jones", .str "Paris"], placeholders := [1, 2] } rfl).1⟩

/-- **C2** (confirmed): every string scalar stored in the returned values
array is free of single quotes and semicolons; and a raw scalar containing
either character — also as the colon-joined value of a `tween` or `in`
operator — makes the normalizer, and with it the whole compilation, fail
with the invalid-value error before anything is pushed. -/
theorem C2_values_sanitized :
    (∀ (q : Query) (cols : List ColumnRec) (r : SqlResult), uri2sql q cols = .ok r →
       ∀ s : String, Scalar.str s ∈ r.values → CleanStr s) ∧
    (∀ s : String, jsIncludes s squote = true ∨ jsIncludes s ';' = true →
       getValue (.str s) = .error (.invalidValue s) ∧
       uri2sql [("note", .scalar (.str s))] [] = .error (.invalidValue s) ∧
       uri2sql [("note", .obj [("tween", .str s)])] [] = .error (.invalidValue s) ∧
       uri2sql [("note", .obj [("in", .str s)])] [] = .error (.invalidValue s)) := by
  constructor
  · intro q cols r h s hs
    unfold uri2sql at h
    split at h
    · exact Except.noConfusion h
    · rename_i st heq
      simp only [Except.ok.injEq] at h
      subst h
      exact (doEntries_good q cols _ st good_init heq).2 s hs
  · intro s hd
    have hgv := getValue_str_dirty hd
    refine ⟨hgv, ?_, ?_, ?_⟩
    · rw [uri2sql_singleton, doEntry_filter_scalar [] initState "note" _ (by decide) rfl, hgv]
    · rw [uri2sql_singleton, doEntry_filter_obj [] initState "note" _ (by decide) rfl, doOps,
          doOp_tween_eval, hgv]
    · rw [uri2sql_singleton, doEntry_filter_obj [] initState "note" _ (by decide) rfl, doOps,
          doOp_in_eval, hgv]

/-- Witness for C2: an accepted value is clean, and the spec's
`{note: "it's"}` scenario fails with the invalid-value error. -/
theorem C2_witness :
    CleanStr "Paris" ∧
    uri2sql [("note", .scalar (.str (String.mk ['i', 't', squote, 's'])))] [] =
      .error (.invalidValue (String.mk ['i', 't', squote, 's'])) :=
  ⟨C2_values_sanitized.1 [("city", .scalar (.str "Paris"))] []
      { sql := "WHERE city = $1 ", values := [.str "Paris"], placeholders := [1] } rfl
      "Paris" (List.mem_cons_self _ _),
   (C2_values_sanitized.2 (String.mk ['i', 't', squote, 's']) (Or.inl (by decide))).2.1⟩

/-- **C3 counterexample**: compiling the plain-equality entry `{c: "NULL"}`
emits `WHERE c = $1 ` and binds the string `"NULL"` to placeholder 1 —
the value is *not* emitted verbatim and *is* added to the bind sequence,
refuting the claim at this input. -/
theorem C3_counterexample :
    uri2sql [("c", .scalar (.str "NULL"))] [] =
      .ok { sql := "WHERE c = $1 ", values := [.str "NULL"], placeholders := [1] } ∧
    Scalar.str "NULL" ∈ [Scalar.str "NULL"] :=
  ⟨rfl, List.mem_cons_self _ _⟩

/-- **C3 amended** (proved): the normalizer returns the raw string `"NULL"`
unchanged (skipping the quote/semicolon check); on the value paths —
in particular plain equality — it is bound like any other string, with one
placeholder emitted and the string `"NULL"` pushed onto the bind sequence;
SQL `NULL` is emitted verbatim with nothing bound only on the `is`-operator
path, which ignores the supplied value entirely. -/
theorem C3_amended_null_binding :
    getValue (.str "NULL") = .ok (.str "NULL") ∧
    uri2sql [("c", .scalar (.str "NULL"))] [] =
      .ok { sql := "WHERE c = $1 ", values := [.str "NULL"], placeholders := [1] } ∧
    uri2sql [("c", .obj [("is", .str "NULL")])] [] =
      .ok { sql := "WHERE c IS NULL ", values := [], placeholders := [] } :=
  ⟨rfl, rfl, rfl⟩

/-- **C4 counterexample**: `{age: {tween: "18:"}}` has an empty second
segment, yet compilation succeeds (emitting two placeholders and pushing
`"18"` and `""`) instead of failing with the missing-value error. -/
theorem C4_counterexample :
    uri2sql [("age", .obj [("tween", .str "18:")])] [] =
      .ok { sql := "WHERE age BETWEEN $1 AND $2 ",
            values := [.str "18", .str ""], placeholders := [1, 2] } ∧
    uri2sql [("age", .obj [("tween", .str "18:")])] [] ≠ .error .missingValue := by
  have h : uri2sql [("age", .obj [("tween", .str "18:")])] [] =
      .ok { sql := "WHERE age BETWEEN $1 AND $2 ",
            values := [.str "18", .str ""], placeholders := [1, 2] } := rfl
  refine ⟨h, ?_⟩
  intro hcon
  rw [h] at hcon
  exact Except.noConfusion hcon

/-- **C4 amended** (proved): a `tween` entry fails with the missing-value
error when the value is the empty string, or when it is a sanitized string
whose split on `:` yields a single segment; a value that parses as a number
(or is already a number) fails with a type error, because `.split` is
called on a `Number`; and whenever the split yields two or more segments —
empty segments included — compilation succeeds, emitting exactly two
placeholders joined by ` AND ` and pushing the first two raw segments in
order. -/
theorem C4_amended_tween :
    (∀ s : String, s ≠ "" → jsToNumber s = none →
       jsIncludes s squote = false → jsIncludes s ';' = false →
       (∀ g, jsSplit s.data = [g] →
          uri2sql [("age", .obj [("tween", .str s)])] [] = .error .missingValue) ∧
       (∀ g0 g1 gs, jsSplit s.data = g0 :: g1 :: gs →
          uri2sql [("age", .obj [("tween", .str s)])] [] =
            .ok { sql := "WHERE age BETWEEN $1 AND $2 ",
                  values := [.str (String.mk g0), .str (String.mk g1)],
                  placeholders := [1, 2] })) ∧
    uri2sql [("age", .obj [("tween", .str "")])] [] = .error .missingValue ∧
    (∀ t : String, t ≠ "" → (∃ n : JsNum, jsToNumber t = some n) →
       uri2sql [("age", .obj [("tween", .str t)])] [] = .error .typeError) ∧
    (∀ n : JsNum, uri2sql [("age", .obj [("tween", .num n)])] [] = .error .typeError) := by
  refine ⟨?_, rfl, ?_, ?_⟩
  · intro s hne hnum hq hsemi
    have hgv := getValue_str_ok hne hnum hq hsemi
    constructor
    · intro g hsp
      rw [uri2sql_singleton, doEntry_filter_obj [] initState "age" _ (by decide) rfl, doOps,
          doOp_tween_eval, hgv]
      simp only [hsp]
    · intro g0 g1 gs hsp
      rw [uri2sql_singleton, doEntry_filter_obj [] initState "age" _ (by decide) rfl, doOps,
          doOp_tween_eval, hgv]
      simp only [hsp]
      rfl
  · intro t hne hr
    obtain ⟨r, hr⟩ := hr
    have hgv : getValue (.str t) = .ok (.num r) := by
      simp [getValue, str_length_beq_zero hne, hr]
    rw [uri2sql_singleton, doEntry_filter_obj [] initState "age" _ (by decide) rfl, doOps,
        doOp_tween_eval, hgv]
  · intro r
    rfl

/-- Witness for C4: the spec's `18:30` scenario succeeds with raw string
segments, and the JS-numeric single-segment values `"18"`, `"0x10"` and
`" 1 "` raise the type error rather than the missing-value error. -/
theorem C4_witness :
    uri2sql [("age", .obj [("tween", .str "18:30")])] [] =
      .ok { sql := "WHERE age BETWEEN $1 AND $2 ",
            values := [.str "18", .str "30"], placeholders := [1, 2] } ∧
    uri2sql [("age", .obj [("tween", .str "18")])] [] = .error .typeError ∧
    uri2sql [("age", .obj [("tween", .str "0x10")])] [] = .error .typeError ∧
    uri2sql [("age", .obj [("tween", .str " 1 ")])] [] = .error .typeError :=
  ⟨(C4_amended_tween.1 "18:30" (by decide) (by decide) (by decide) (by decide)).2
      ['1', '8'] ['3', '0'] [] rfl,
   C4_amended_tween.2.2.1 "18" (by decide) ⟨.val 18, by decide⟩,
   C4_amended_tween.2.2.1 "0x10" (by decide) ⟨.val 16, by decide⟩,
   C4_amended_tween.2.2.1 " 1 " (by decide) ⟨.val 1, by decide⟩⟩

/-- **C5** (confirmed): column validation is a no-op for the empty
allow-list; with a non-empty allow-list, a first filter column matching no
record's `column_name` fails the whole compilation with the unknown-column
error, and the same check guards sort columns; the spec's examples
`{b: 1}` (rejected) and `{a: 1}` (accepted) against `[{column_name:"a"}]`
behave as claimed. -/
theorem C5_column_allowlist :
    (∀ name : String, checkCol [] name = .ok ()) ∧
    (∀ (cols : List ColumnRec) (col : String) (v : JsVal) (q : Query),
       cols ≠ [] → headIs col '$' = false →
       (∀ c ∈ cols, c.column_name ≠ col) →
       uri2sql ((col, v) :: q) cols = .error (.unknownColumn col)) ∧
    uri2sql [("b", .scalar (.num (.val 1)))] [{ column_name := "a" }] =
      .error (.unknownColumn "b") ∧
    uri2sql [("a", .scalar (.num (.val 1)))] [{ column_name := "a" }] =
      .ok { sql := "WHERE a = $1 ", values := [.num (.val 1)], placeholders := [1] } ∧
    uri2sql [("$sort", .scalar (.str "b"))] [{ column_name := "a" }] =
      .error (.unknownColumn "b") := by
  refine ⟨fun name => rfl, ?_, rfl, rfl, rfl⟩
  intro cols col v q hcols hcol hnomem
  have hfind : cols.find? (fun o => o.column_name == col) = none :=
    List.find?_eq_none.mpr (fun x hx hbeq => hnomem x hx (by simpa using hbeq))
  have hlen : cols.length > 0 := by
    cases cols with
    | nil => exact absurd rfl hcols
    | cons a l => simp
  have hchk : checkCol cols col = .error (.unknownColumn col) := by
    simp [checkCol, hlen, hfind]
  have hde : doEntry cols initState (col, v) = .error (.unknownColumn col) := by
    simp [doEntry, hcol, hchk]
  unfold uri2sql
  rw [doEntries, hde]

/-- Witness for C5 applying the general unknown-column part. -/
theorem C5_witness :
    uri2sql [("b", .scalar (.num (.val 2)))] [{ column_name := "z" }] =
      .error (.unknownColumn "b") :=
  C5_column_allowlist.2.1 [{ column_name := "z" }] "b" (.scalar (.num (.val 2))) []
    (by decide) (by decide) (by decide)

/-- **C6** (confirmed): an operator token that (after stripping a leading
`-`) is not in the operator table does not fail compilation: the compiler
silently emits `= ` followed by one placeholder and pushes the single
normalized value — identically with or without the negation marker. -/
theorem C6_unknown_operator_fallback :
    ∀ (t : String) (v val : Scalar),
      headIs t '-' = false → operators.contains t = false → getValue v = .ok val →
      uri2sql [("c", .obj [(t, v)])] [] =
        .ok { sql := "WHERE c = $1 ", values := [val], placeholders := [1] } ∧
      uri2sql [("c", .obj [("-" ++ t, v)])] [] =
        .ok { sql := "WHERE c = $1 ", values := [val], placeholders := [1] } := by
  intro t v val hdash hop hgv
  constructor
  · rw [uri2sql_singleton, doEntry_filter_obj [] initState "c" _ (by decide) rfl, doOps,
        doOp_unknown_eval _ _ _ _ hdash hop, hgv]
    rfl
  · rw [uri2sql_singleton, doEntry_filter_obj [] initState "c" _ (by decide) rfl, doOps,
        doOp_unknown_neg_eval _ _ _ _ hop, hgv]
    rfl

/-- Witness for C6 at the unknown token `zz` with value `"x"`. -/
theorem C6_witness :
    uri2sql [("c", .obj [("zz", .str "x")])] [] =
      .ok { sql := "WHERE c = $1 ", values := [.str "x"], placeholders := [1] } ∧
    uri2sql [("c", .obj [("-zz", .str "x")])] [] =
      .ok { sql := "WHERE c = $1 ", values := [.str "x"], placeholders := [1] } :=
  C6_unknown_operator_fallback "zz" (.str "x") (.str "x") (by decide) (by decide) rfl

/-- **C7 counterexample**: the segments of an `in` list are pushed raw, not
individually normalized: compiling `{n: {in: "1:2"}}` stores the *strings*
`"1"` and `"2"`, although the normalizer maps the segment `"1"` to the
*number* 1 — so "normalizes and pushes each segment value" fails on this
input. -/
theorem C7_counterexample :
    uri2sql [("n", .obj [("in", .str "1:2")])] [] =
      .ok { sql := "WHERE n IN ($1, $2) ",
            values := [.str "1", .str "2"], placeholders := [1, 2] } ∧
    getValue (.str "1") = .ok (.num (.val 1)) ∧
    Scalar.str "1" ≠ Scalar.num (.val 1) :=
  ⟨rfl, rfl, by decide⟩

/-- **C7 amended** (proved): for an `in` entry whose value is a nonempty,
non-numeric, sanitized string, the compiler splits the value on `:` and
emits one placeholder per segment joined by `, `, closes the list with
`) `, and pushes each *raw segment string* (the joined value was normalized
and sanitized as a whole; segments are not individually normalized) onto
the bind sequence in order; a value that parses as a JS number (including
hex, whitespace-padded and `Infinity` forms) instead fails with a type
error, because `.split` is called on a `Number`; the spec's
`{status: {in: "a:b:c"}}` scenario yields exactly the claimed result. -/
theorem C7_amended_in :
    (∀ (s : String) (g : List Char) (gs : List (List Char)),
       s ≠ "" → jsToNumber s = none →
       jsIncludes s squote = false → jsIncludes s ';' = false →
       jsSplit s.data = g :: gs →
       uri2sql [("status", .obj [("in", .str s)])] [] =
         .ok { sql := "WHERE status IN (" ++ phList true 1 (g :: gs) ++ ") ",
               values := (g :: gs).map (fun x => Scalar.str (String.mk x)),
               placeholders := List.range' 1 (g :: gs).length }) ∧
    (∀ t : String, t ≠ "" → (∃ n : JsNum, jsToNumber t = some n) →
       uri2sql [("status", .obj [("in", .str t)])] [] = .error .typeError) ∧
    uri2sql [("status", .obj [("in", .str "a:b:c")])] [] =
      .ok { sql := "WHERE status IN ($1, $2, $3) ",
            values := [.str "a", .str "b", .str "c"], placeholders := [1, 2, 3] } := by
  refine ⟨?_, ?_, rfl⟩
  · intro s g gs hne hnum hq hsemi hsp
    have hgv := getValue_str_ok hne hnum hq hsemi
    rw [uri2sql_singleton, doEntry_filter_obj [] initState "status" _ (by decide) rfl, doOps,
        doOp_in_eval, hgv]
    simp only [hsp, doInSegs_spec]
    simp [initState, String.append_empty, doOps]
  · intro t hne hr
    obtain ⟨n, hr⟩ := hr
    have hgv : getValue (.str t) = .ok (.num n) := by
      simp [getValue, str_length_beq_zero hne, hr]
    rw [uri2sql_singleton, doEntry_filter_obj [] initState "status" _ (by decide) rfl, doOps,
        doOp_in_eval, hgv]

/-- Witness for C7 applying the general parts at `"x:y"` and at the
JS-numeric value `"Infinity"`. -/
theorem C7_witness :
    uri2sql [("status", .obj [("in", .str "x:y")])] [] =
      .ok { sql := "WHERE status IN (" ++ phList true 1 [['x'], ['y']] ++ ") ",
            values := [['x'], ['y']].map (fun x => Scalar.str (String.mk x)),
            placeholders := List.range' 1 2 } ∧
    uri2sql [("status", .obj [("in", .str "Infinity")])] [] = .error .typeError :=
  ⟨C7_amended_in.1 "x:y" ['x'] [['y']] (by decide) (by decide) (by decide) (by decide) rfl,
   C7_amended_in.2.1 "Infinity" (by decide) ⟨.inf, by decide⟩⟩

/-- **C8** (confirmed): for each of the ten operator tokens, the negated row
of the table is the semantic complement of the normal row per the fixed
pairing (`eq`↔`ne`, `lt`↔`gte`, `gt`↔`lte`, and `NOT `-prefixing for `in`,
`like`, `tween`, with `is`↔`IS NOT `); and for every token, compiling the
token selects the normal row and compiling its `-`-prefixed form strips
the marker and selects the negated row (checked as a prefix of the emitted
SQL right after the column name, over all ten tokens at the value
`"a:b"`, which every operator accepts). -/
theorem C8_operator_negation_table :
    (opTextOf 1 "eq" = opTextOf 0 "ne" ∧ opTextOf 1 "ne" = opTextOf 0 "eq") ∧
    (opTextOf 1 "lt" = opTextOf 0 "gte" ∧ opTextOf 1 "gte" = opTextOf 0 "lt") ∧
    (opTextOf 1 "gt" = opTextOf 0 "lte" ∧ opTextOf 1 "lte" = opTextOf 0 "gt") ∧
    opTextOf 1 "in" = "NOT " ++ opTextOf 0 "in" ∧
    opTextOf 1 "like" = "NOT " ++ opTextOf 0 "like" ∧
    opTextOf 1 "tween" = "NOT " ++ opTextOf 0 "tween" ∧
    (opTextOf 0 "is" = "IS " ∧ opTextOf 1 "is" = "IS NOT ") ∧
    (operators.all fun t =>
      (match uri2sql [("c", .obj [(t, .str "a:b")])] [] with
       | .ok r => List.isPrefixOf ("WHERE c " ++ opTextOf 0 t).data r.sql.data
       | .error _ => false) &&
      (match uri2sql [("c", .obj [("-" ++ t, .str "a:b")])] [] with
       | .ok r => List.isPrefixOf ("WHERE c " ++ opTextOf 1 t).data r.sql.data
       | .error _ => false)) = true := by
  refine ⟨⟨rfl, rfl⟩, ⟨rfl, rfl⟩, ⟨rfl, rfl⟩, rfl, rfl, rfl, ⟨rfl, rfl⟩, ?_⟩
  decide

/-- **C9** (confirmed): the whole `$sort` string is passed through the value
normalizer before being split on `:`: an empty `$sort` string fails with
the missing-value error, and a `$sort` string containing a single quote or
semicolon fails with the invalid-value error — regardless of the
allow-list, since the normalizer runs before any column check. -/
theorem C9_sort_through_normalizer :
    uri2sql [("$sort", .scalar (.str ""))] [] = .error .missingValue ∧
    (∀ (s : String) (cols : List ColumnRec),
       jsIncludes s squote = true ∨ jsIncludes s ';' = true →
       uri2sql [("$sort", .scalar (.str s))] cols = .error (.invalidValue s)) := by
  refine ⟨rfl, ?_⟩
  intro s cols hd
  have hgv := getValue_str_dirty hd
  rw [uri2sql_singleton, doEntry_sort_str, hgv]

/-- Witness for C9 at `$sort` values containing a quote and a semicolon. -/
theorem C9_witness :
    uri2sql [("$sort", .scalar (.str (String.mk ['x', squote])))] [] =
      .error (.invalidValue (String.mk ['x', squote])) ∧
    uri2sql [("$sort", .scalar (.str (String.mk ['x', ';'])))] [] =
      .error (.invalidValue (String.mk ['x', ';'])) :=
  ⟨C9_sort_through_normalizer.2 _ [] (Or.inl (by decide)),
   C9_sort_through_normalizer.2 _ [] (Or.inr (by decide))⟩

/-- **C10** (confirmed): a query-object key beginning with `$` that is not
exactly `$sort` is silently skipped: wherever it occurs, the compilation
result — SQL text, values, emitted placeholders, and any error — is
identical to compiling the same query without that entry; in particular it
is never column-validated and raises no error. -/
theorem C10_dollar_keys_skipped :
    ∀ (q1 q2 : Query) (col : String) (v : JsVal) (cols : List ColumnRec),
      headIs col '$' = true → col ≠ "$sort" →
      uri2sql (q1 ++ (col, v) :: q2) cols = uri2sql (q1 ++ q2) cols := by
  intro q1 q2 col v cols hcol hsort
  have hskip : ∀ st : CompState, doEntry cols st (col, v) = .ok st :=
    fun st => doEntry_dollar_skip hcol (beq_eq_false_iff_ne.mpr hsort)
  have key : ∀ (q : Query) (st : CompState),
      doEntries cols st (q ++ (col, v) :: q2) = doEntries cols st (q ++ q2) := by
    intro q
    induction q with
    | nil =>
      intro st
      simp only [List.nil_append]
      rw [doEntries, hskip st]
    | cons e rest ih =>
      intro st
      simp only [List.cons_append]
      rw [doEntries, doEntries]
      cases h : doEntry cols st e with
      | error err => rfl
      | ok st1 => exact ih st1
  unfold uri2sql
  rw [key q1 initState]

/-- Witness for C10: inserting a `$limit` entry changes nothing. -/
theorem C10_witness :
    uri2sql [("a", .scalar (.str "x")), ("$limit", .scalar (.num (.val 5)))] [] =
      uri2sql [("a", .scalar (.str "x"))] [] :=
  C10_dollar_keys_skipped [("a", .scalar (.str "x"))] [] "$limit" (.scalar (.num (.val 5))) []
    (by decide) (by decide)

end Uri2Sql
